import Mathlib

/-!
Shallow embedding of `src/lib/commands/install.js` — the install command of
the Seed package manager — together with proofs about it.

Conventions of the embedding:
* JavaScript objects become Lean structures; a field that is `null` or
  possibly absent becomes an `Option`.
* The dictionary `this.descriptors` (packageId → array of descriptors)
  becomes an association list.
* The external semantic-version utility (`require('tiki').semver`) is out
  of scope of the repository; its `compare`, `compatible` and `normalize`
  operations are taken as parameters of the definitions that call them.
* Remote objects are identified by a natural number; their asynchronous
  `list`/`fetch` operations are modelled as pure reply functions, one
  reply per call, which is faithful because the source issues at most one
  such call per remote per scan.
* Asynchronous control flow (`CORE.once`, `CORE.iter.chain/parallel/find`)
  lives in `private/core`, which is not part of the sources; those
  primitives are modelled from the spec where a claim depends on them,
  and each such definition says so in its doc comment.
-/

namespace Seed

/-- A `packageInfo` record as returned by a remote's `list` operation
(consumed by `buildDescriptorFromRemote`, source lines 138-148).  The
`dependencies` field may be absent (`remotePackageInfo.dependencies || {}`). -/
structure PackageInfo where
  name : String
  version : String
  dependencies : Option (List (String × String))
deriving Repr, DecidableEq

/-- A loaded package object as produced by `require.packageFor`: exposes
name, version, dependencies and its own path (read by
`buildDescriptorFromPackage`, source lines 124-133). -/
structure Package where
  name : String
  version : String
  dependencies : Option (List (String × String))
  path : String
deriving Repr, DecidableEq

/-- A package descriptor (source lines 124-133 and 138-148).  `remote` is
the identity of the remote that produced it (`null` for local packages),
`info` the raw remote metadata, `path` the staged local path (`null`
until prepared), `location` the origin string `"local"` or `"remote"`. -/
structure Descriptor where
  name : String
  version : String
  dependencies : List (String × String)
  remote : Option Nat
  info : Option PackageInfo
  path : Option String
  location : String
deriving Repr, DecidableEq

/-- `this.descriptors`: a JavaScript object used as a dictionary from
packageId to the array of known descriptors (source line 71). -/
abbrev Cache := List (String × List Descriptor)

/-- Read a bucket of the descriptor dictionary
(`this.descriptors[packageId]`); `none` when the key is absent. -/
def cacheGet : Cache → String → Option (List Descriptor)
  | [], _ => none
  | (k, v) :: rest, key => if k = key then some v else cacheGet rest key

/-- Write a bucket of the descriptor dictionary
(`this.descriptors[packageId] = …`). -/
def cacheSet : Cache → String → List Descriptor → Cache
  | [], key, bucket => [(key, bucket)]
  | (k, v) :: rest, key, bucket =>
      if k = key then (k, bucket) :: rest
      else (k, v) :: cacheSet rest key bucket

/-- One iteration of the scan loop of `descriptorFor` (source lines
89-98).  `ret` is the loop accumulator.  `cmp` and `compat` stand for the
external `SEMVER.compare` and `SEMVER.compatible`. -/
def descriptorForStep (cmp : String → String → Int)
    (compat : String → String → Bool)
    (version : Option String) (isExact : Bool)
    (ret : Option Descriptor) (cur : Descriptor) : Option Descriptor :=
  if version = none ∨ (!isExact ∧ compat (version.getD "") cur.version) then
    match ret with
    | none => some cur
    | some r => if cmp r.version cur.version < 0 then some cur else ret
  else if some cur.version = version then some cur
  else ret

/-- `descriptorFor` (source lines 85-101): select from the cache the
descriptor for `packageId` matching `version`; with no version the
highest version wins, with `isExact` only a verbatim version match is
returned.  Returns `none` when nothing qualifies. -/
def descriptorFor (cmp : String → String → Int)
    (compat : String → String → Bool) (cache : Cache)
    (packageId : String) (version : Option String) (isExact : Bool) :
    Option Descriptor :=
  match cacheGet cache packageId with
  | none => none
  | some descList =>
      descList.foldl (descriptorForStep cmp compat version isExact) none

/-- `addDescriptor` (source lines 107-122).  In the source the scan bound
is `lim = desc.length`; a package descriptor carries no `length`
property, so in JavaScript `lim` is `undefined` and the loop condition
`idx < lim` (that is `idx < undefined`) is always false: the loop body
never executes and `found` keeps its initial falsy value.  The embedding
keeps that behaviour — the branch on `found` is preserved as written, but
`found` is definitionally `false`, so the descriptor is always appended
and the function always returns `true`. -/
def addDescriptor (cache : Cache) (desc : Descriptor) (overlay : Bool) :
    Cache × Bool :=
  let descriptors := (cacheGet cache desc.name).getD []
  let found := false
  if found then
    if !overlay then (cache, false)
    else (cacheSet cache desc.name descriptors, true)
  else (cacheSet cache desc.name (descriptors ++ [desc]), true)

/-- `buildDescriptorFromPackage` (source lines 124-133).  `normalize`
stands for the external `SEMVER.normalize`. -/
def buildDescriptorFromPackage (normalize : String → String)
    (pkg : Package) : Descriptor :=
  { name := pkg.name
    version := normalize pkg.version
    dependencies := pkg.dependencies.getD []
    remote := none
    info := none
    path := some pkg.path
    location := "local" }

/-- `buildDescriptorFromRemote` (source lines 138-148). -/
def buildDescriptorFromRemote (normalize : String → String)
    (info : PackageInfo) (remoteId : Nat) : Descriptor :=
  { name := info.name
    version := normalize info.version
    dependencies := info.dependencies.getD []
    remote := some remoteId
    info := some info
    path := none
    location := "remote" }

/-- `loadDescriptor` (source lines 153-168): load the package at a path
and insert its descriptor with overlay = true ("replace whatever is in
cache").  `CORE.path.normalize` and `require.packageFor` are external and
taken as oracles (`normPath`, `packageAt`); `packageAt … = none` stands
for a load error, in which case the callback receives the error and the
cache is untouched. -/
def loadDescriptor (normalize normPath : String → String)
    (packageAt : String → Option Package) (cache : Cache) (path : String) :
    Cache × Option Descriptor :=
  match packageAt (normPath path) with
  | none => (cache, none)
  | some pkg =>
      let ret := buildDescriptorFromPackage normalize pkg
      ((addDescriptor cache ret true).1, some ret)

/-- The query options built by `findDescriptor` (source lines 179-184).
In the source `exact` is sent as the string `'true'`/`'false'` and
`dependencies` is the literal `false` (the version depending on the
session preference is commented out). -/
structure ListOpts where
  name : String
  version : Option String
  exactStr : String
  dependencies : Bool
deriving Repr, DecidableEq

/-- A remote, identified by `id`; `reply opts` is the `(err, response)`
pair its `list` operation passes to the callback, collapsed to `none`
when `err || !response` holds (both are handled identically at source
line 190, apart from a verbose log). -/
structure RemoteObj where
  id : Nat
  reply : ListOpts → Option (List PackageInfo)

/-- Result of a resolution: the updated descriptor cache, the descriptor
found (if any), and the `list` queries issued to remotes, as
(remote id, options) pairs in issue order. -/
structure FindResult where
  cache : Cache
  found : Option Descriptor
  queries : List (Nat × ListOpts)
deriving Repr

/-- The `response.forEach` body of the remote scan (source lines
191-195): each returned `packageInfo` is turned into a descriptor and
inserted with overlay = false ("don't overlay cache").  The speculative
`context.prepare(desc, CORE.noop)` started there touches only the
descriptor's prepare job, not the cache, and is not modelled here. -/
def mergeResponse (normalize : String → String) (cache : Cache)
    (response : List PackageInfo) (remoteId : Nat) : Cache :=
  response.foldl
    (fun c info =>
      (addDescriptor c (buildDescriptorFromRemote normalize info remoteId)
        false).1)
    cache

/-- The cache contribution of one scanned remote: a failed or empty reply
leaves the cache unchanged; a response is merged with overlay = false. -/
def mergeReply (normalize : String → String) (opts : ListOpts)
    (cache : Cache) (r : RemoteObj) : Cache :=
  match r.reply opts with
  | none => cache
  | some response => mergeResponse normalize cache response r.id

/-- The remote scan of `findDescriptor` (source lines 187-204).
Modelled from the spec: the iteration combinator `CORE.iter.find`
(module `private/core`, not under `src/`) "iterates configured remotes
in priority order, sequentially (not in parallel — search stops at the
first satisfying remote)"; each remote's test queries `remote.list`,
treats an error or missing response as "no result", merges a response
into the cache and re-runs the cache selection, stopping when it
succeeds. -/
def findLoop (cmp : String → String → Int)
    (compat : String → String → Bool) (normalize : String → String)
    (packageId : String) (version : Option String) (exactM : Bool)
    (opts : ListOpts) : Cache → List RemoteObj → FindResult
  | cache, [] => ⟨cache, none, []⟩
  | cache, r :: rest =>
      match r.reply opts with
      | none =>
          let res := findLoop cmp compat normalize packageId version exactM
            opts cache rest
          ⟨res.cache, res.found, (r.id, opts) :: res.queries⟩
      | some response =>
          let c1 := mergeResponse normalize cache response r.id
          match descriptorFor cmp compat c1 packageId version exactM with
          | some d => ⟨c1, some d, [(r.id, opts)]⟩
          | none =>
              let res := findLoop cmp compat normalize packageId version
                exactM opts c1 rest
              ⟨res.cache, res.found, (r.id, opts) :: res.queries⟩

/-- The query options `findDescriptor` builds at source lines 179-184,
after the exact-flag munging `if (!version || !exact) exact = null;`:
the `exact` option is the string `'true'` only when a version is given
and exact was requested, and `dependencies` is the literal `false`. -/
def fdOpts (packageId : String) (version : Option String)
    (isExact : Bool) : ListOpts :=
  ⟨packageId, version,
   if version.isSome && isExact then "true" else "false", false⟩

/-- `findDescriptor` (source lines 173-206): look the descriptor up in
the cache; on a miss, scan the remotes.  Before the scan the source
munges the exact flag (`if (!version || !exact) exact = null;`), so the
queries and the in-loop re-selection use the munged flag
`version.isSome && isExact`.  `pref` is the session's
`includeDependencies` preference, which the function never reads (the
`dependencies` option is hard-coded to `false`). -/
def findDescriptor (cmp : String → String → Int)
    (compat : String → String → Bool) (normalize : String → String)
    (pref : Option Bool) (cache : Cache) (remotes : List RemoteObj)
    (packageId : String) (version : Option String) (isExact : Bool) :
    FindResult :=
  match descriptorFor cmp compat cache packageId version isExact with
  | some d => ⟨cache, some d, []⟩
  | none =>
      findLoop cmp compat normalize packageId version
        (version.isSome && isExact) (fdOpts packageId version isExact) cache
        remotes

/-- The `(err, path)` pair a remote's `fetch` operation passes to its
callback (source line 230). -/
structure FetchReply where
  err : Option String
  path : Option String
deriving Repr, DecidableEq

/-- The body of `prepareJob` (source lines 220-238) as a function of the
remote's fetch reply.  Returns the outcome (`some` error message or
success), the updated descriptor, and whether a fetch was issued.  Two
notes on fidelity: the source builds the fetch-failure message from
`desc.packageId`, a property no descriptor ever carries (descriptors
have `name`), so in JavaScript the message interpolates the string
`undefined`; and a fetch error coming back from the remote is forwarded
verbatim. -/
def prepareBody (fetch : Option PackageInfo → FetchReply)
    (desc : Descriptor) : (Option String × Descriptor) × Bool :=
  if desc.path.isSome then ((none, desc), false)
  else
    match desc.remote with
    | none => ((some "internal error: missing remote", desc), false)
    | some _ =>
        let reply := fetch desc.info
        let errAfter := if reply.err = none ∧ reply.path = none then
            some ("Could not fetch undefined (" ++ desc.version ++ ")")
          else reply.err
        match errAfter with
        | some e => ((some e, desc), true)
        | none => ((none, { desc with path := reply.path }), true)

/-- `installDependencies` (source lines 323-344), restricted to its
synchronous prefix: read the session preference into the local variable
`includeDependencies`, lazily default the session field from the
descriptor's origin, then decide whether to launch the dependency
fan-out.  Returns the preference stored on the context after the call
and whether the dependency installs are launched by this call.  Note the
guard `if (!includeDependencies) return done();` tests the local
variable captured *before* the defaulting assignment, and in JavaScript
both `undefined` and `false` are falsy. -/
def installDependenciesStep (pref : Option Bool) (desc : Descriptor) :
    Option Bool × Bool :=
  let includeDependencies := pref
  let prefAfter :=
    if includeDependencies = none then some (desc.location == "remote")
    else pref
  (prefAfter, includeDependencies == some true)

/-- The path test of `install` (source line 269): the argument is a
filesystem path when it begins with `.` (`packageId[0]==='.'`, false for
the empty string) or contains `/` (`packageId.indexOf('/')>=0`). -/
def looksLikePath (packageId : String) : Bool :=
  (packageId.toList.head? = some '.') || packageId.toList.contains '/'

/-- The first chain step of `install` (source lines 267-276): classify
the argument, then either load a descriptor directly from the path or
resolve it through the cache and the remotes. -/
def installResolve (cmp : String → String → Int)
    (compat : String → String → Bool)
    (normalize normPath : String → String)
    (packageAt : String → Option Package) (pref : Option Bool)
    (cache : Cache) (remotes : List RemoteObj) (packageId : String)
    (version : Option String) (isExact : Bool) : FindResult :=
  if looksLikePath packageId then
    let (c, d) := loadDescriptor normalize normPath packageAt cache packageId
    ⟨c, d, []⟩
  else
    findDescriptor cmp compat normalize pref cache remotes packageId version
      isExact

/-- What the second chain step of `install` (source lines 281-317) does
with the resolved descriptor: fail with "`<packageId>` not found" or
demand the descriptor's memoized install job. -/
inductive InstallContinuation where
  | notFound (msg : String)
  | demandJob (desc : Descriptor)
deriving Repr, DecidableEq

/-- `install` (source lines 256-318) up to the demand of the memoized
install job: the updated cache, the continuation, and the remote queries
issued.  `force` is the fourth parameter of the source function; it is
inspected only by the calling-convention check (`'function' === typeof
force`, lines 260-263, which detects the callback being passed in fourth
position), and in the five-argument convention modelled here it is a
boolean the body never reads afterwards. -/
def installCall (cmp : String → String → Int)
    (compat : String → String → Bool)
    (normalize normPath : String → String)
    (packageAt : String → Option Package) (pref : Option Bool)
    (cache : Cache) (remotes : List RemoteObj) (packageId : String)
    (version : Option String) (isExact : Bool) (force : Bool) :
    Cache × InstallContinuation × List (Nat × ListOpts) :=
  let res := installResolve cmp compat normalize normPath packageAt pref
    cache remotes packageId version isExact
  match res.found with
  | none => (res.cache, .notFound (packageId ++ " not found"), res.queries)
  | some d => (res.cache, .demandJob d, res.queries)

/-- A completion signal delivered to the `done` callback of the command:
`done(err)` or `done()`. -/
inductive Signal where
  | failure (msg : String)
  | success
deriving Repr, DecidableEq

/-- Modelled from the spec: `Cmds.fail` (module `commands`, not under
`src/`): "the command reports a single failure message" — the helper
signals the completion callback once with the failure message. -/
def cmdFail (msg : String) : List Signal := [.failure msg]

/-- The option state `invoke` collects before validating
(`collectState`, source lines 34-46, restricted to the fields `invoke`
reads). -/
structure CmdState where
  packageIds : List String
  version : Option String
deriving Repr, DecidableEq

/-- The completion-callback invocations of `exports.invoke` (source
lines 352-411), in firing order.  `sources` is the list of
`acceptsInstalls` flags of `require.loader.sources`; `chainOutcome` is
the outcome the remote-lookup/parallel-install chain (lines 379-409)
eventually passes to its final callback `function(err) { return
done(err); }`.  The chain suspends at remote and install I/O, so that
callback fires after `invoke` returns — after the unconditional `return
done();` on line 410, which therefore signals success first. -/
def invokeSignals (state : CmdState) (sources : List Bool)
    (chainOutcome : Option String) : List Signal :=
  if state.packageIds.isEmpty then
    cmdFail "You must name at least one package"
  else if state.version.isSome ∧ state.packageIds.length ≠ 1 then
    cmdFail "--version switch can only be used with one package name"
  else if sources.all (fun accepts => !accepts) then
    cmdFail "Cannot find install location"
  else
    [Signal.success,
     match chainOutcome with
     | some e => Signal.failure e
     | none => Signal.success]

/-- Outcome passed to a job's callback: `some` error or success. -/
abbrev Outcome := Option String

/-- Modelled from the spec: `CORE.once` (module `private/core`, not
under `src/`): "wraps an asynchronous operation so it runs at most one
time; any call while it is pending attaches to the same in-flight
outcome; any call after completion (or before, if already resolved)
returns the cached outcome without re-executing the operation" —
combined with the lazy attachment of `desc.installJob` in `install`
(source lines 284-286 and 315): the job is created on first demand.
States: no job attached yet; body in flight with the callbacks waiting
on it; completed with a cached outcome. -/
inductive JobState where
  | unset
  | pending (waiters : List Nat)
  | settled (o : Outcome)
deriving Repr, DecidableEq

/-- An event at a descriptor's install job: `call c` is one demand
(`job(done)`, source line 315) by caller `c`; `finish o` is the job body
completing with outcome `o`. -/
inductive JobEvent where
  | call (c : Nat)
  | finish (o : Outcome)
deriving Repr, DecidableEq

/-- One step of the memoized job (modelled from the spec, see
`JobState`): a first demand creates the job and starts its body (the
third component counts body starts); a demand while pending joins the
waiters; a demand after completion is answered from the cache; the body
finishing settles the job and answers every waiter.  The second
component lists the callbacks fired, with the outcome each received. -/
def jobStep : JobState → JobEvent → JobState × List (Nat × Outcome) × Nat
  | .unset, .call c => (.pending [c], [], 1)
  | .pending ws, .call c => (.pending (ws ++ [c]), [], 0)
  | .settled o, .call c => (.settled o, [(c, o)], 0)
  | .pending ws, .finish o => (.settled o, ws.map (fun c => (c, o)), 0)
  | s, .finish _ => (s, [], 0)

/-- Run a sequence of job events, accumulating fired callbacks and body
starts. -/
def jobRun : JobState → List JobEvent → JobState × List (Nat × Outcome) × Nat
  | s, [] => (s, [], 0)
  | s, e :: es =>
      let step := jobStep s e
      let rest := jobRun step.1 es
      (rest.1, step.2.1 ++ rest.2.1, step.2.2 + rest.2.2)

/-- A trace is wellformed when the body's completion only occurs while
the body is in flight: the operation wrapped by `once` reports its
completion exactly once, and only after it was started. -/
def jobWF : JobState → List JobEvent → Bool
  | _, [] => true
  | s, e :: es =>
      (match s, e with
       | .pending _, .finish _ => true
       | _, .finish _ => false
       | _, .call _ => true) && jobWF (jobStep s e).1 es

/-- Number of demands in a trace. -/
def callCount : List JobEvent → Nat
  | [] => 0
  | .call _ :: es => callCount es + 1
  | .finish _ :: es => callCount es

/-- The outcomes of the asynchronous sub-steps of one execution of the
install-job body (source lines 286-312): the outcome `prepare` passes on,
the outcome of `installDependencies`, the `(err, pkg)` reply of
`require.packageFor(desc.path)`, the outcome of `source.install`, and
the outcome of `remote.cleanup`. -/
structure InstallEnv where
  prepareOutcome : Option String
  depsOutcome : Option String
  loadErr : Option String
  loadPkg : Option Package
  sourceOutcome : Option String
  cleanupOutcome : Option String
deriving Repr, DecidableEq

/-- The body of `installJob` (source lines 286-312) as a function of its
sub-step outcomes: the outcome it passes to its callback, and the number
of times `context.source.install` is invoked.  The guard
`if (!err & !pkg)` uses a bitwise AND, which on the boolean operands it
receives agrees with logical AND.  Cleanup runs only for remote-origin
descriptors and its outcome is forwarded (`CORE.err(done)`). -/
def installJobBody (packageId : String) (desc : Descriptor)
    (env : InstallEnv) : Outcome × Nat :=
  match env.prepareOutcome with
  | some e => (some e, 0)
  | none =>
    match env.depsOutcome with
    | some e => (some e, 0)
    | none =>
      let errAfter := if env.loadErr = none ∧ env.loadPkg = none then
          some (packageId ++ " is invalid")
        else env.loadErr
      match errAfter with
      | some e => (some e, 0)
      | none =>
        match env.sourceOutcome with
        | some e => (some e, 1)
        | none =>
          if desc.remote.isSome then (env.cleanupOutcome, 1)
          else (none, 1)

/-- A concrete local-origin descriptor for package `a` version `1.0.0`
with one dependency, used in the concrete evaluations below. -/
def dLocalA : Descriptor :=
  ⟨"a", "1.0.0", [("bar", "1.0.0")], none, none, some "/pkg/a", "local"⟩

/-- A concrete remote-origin descriptor for the same package `a` version
`1.0.0` (remote 0), used in the concrete evaluations below. -/
def dRemoteA : Descriptor :=
  ⟨"a", "1.0.0", [("bar", "1.0.0")], some 0, some ⟨"a", "1.0.0", none⟩,
   none, "remote"⟩

/-- A concrete semantic-version comparator used to instantiate the
external `SEMVER.compare` in witnesses: compare by length (on the
sample versions below, length order agrees with version order). -/
def cmpLen (a b : String) : Int := (a.length : Int) - b.length

/-- Concrete cached descriptors for package `foo`, versions `1` and
`22`, used in the concrete evaluations below. -/
def dFoo1 : Descriptor := ⟨"foo", "1", [], some 0, none, none, "remote"⟩

/-- Second sample cached descriptor for `foo` (version `22`). -/
def dFoo22 : Descriptor := ⟨"foo", "22", [], some 1, none, none, "remote"⟩

/-! ## Theorems -/

/-- C2: evaluation of `addDescriptor` at the failing input.  A cache
already holding a descriptor for `("a", "1.0.0")`, on insertion of a
second descriptor with the same name and version and overlay = false,
gains a duplicate `(name, version)` pair and the call reports `true` —
instead of leaving the cache unchanged and reporting `false` — because
the scan bound `lim = desc.length` is `undefined` and the existing entry
is never detected. -/
theorem addDescriptor_duplicate_entry :
    addDescriptor [("a", [dRemoteA])] dLocalA false
      = ([("a", [dRemoteA, dLocalA])], true) ∧
    dLocalA.name = dRemoteA.name ∧ dLocalA.version = dRemoteA.version := by
  decide

/-- C3: evaluation of `installDependencies` around the defaulting call.
With the session preference unset and a remote-origin triggering
descriptor, the preference is defaulted to `true` for later calls in the
session, but the guard reads the stale local snapshot, so the
dependencies of the triggering descriptor itself are skipped on that
very call; a local-origin descriptor also skips; later calls obey the
stored preference. -/
theorem installDependencies_defaulting_call_skips :
    installDependenciesStep none dRemoteA = (some true, false) ∧
    installDependenciesStep none dLocalA = (some false, false) ∧
    installDependenciesStep (some true) dRemoteA = (some true, true) ∧
    installDependenciesStep (some false) dRemoteA = (some false, false) := by
  decide

/-- C4: evaluation of `invoke`'s completion signalling at the failing
input.  On a well-formed invocation whose launched installs later fail,
the completion callback is signalled twice: once with success by the
unconditional `return done();` closing `invoke` (before the installs
finish), and once with the chain's outcome.  Validation failures do
signal exactly once. -/
theorem invoke_signals_completion_twice :
    invokeSignals ⟨["foo"], none⟩ [true] (some "boom")
      = [Signal.success, Signal.failure "boom"] ∧
    (invokeSignals ⟨["foo"], none⟩ [true] (some "boom")).length = 2 ∧
    invokeSignals ⟨[], none⟩ [true] none
      = [Signal.failure "You must name at least one package"] := by
  decide

/-- C7: evaluation of the prepare-job body.  A descriptor whose local
path is set completes successfully without fetching, whatever the
remote's fetch would reply; a failing fetch forwards the remote's
error; a successful fetch sets the path and completes; but a fetch that
succeeds with no path produces the message `Could not fetch undefined
(1.0.0)` for the descriptor named `a` — the message does not name the
package id, because the source reads `desc.packageId`, a property no
descriptor carries. -/
theorem prepare_fetch_failure_names_undefined :
    (∀ fetch, prepareBody fetch dLocalA = ((none, dLocalA), false)) ∧
    prepareBody (fun _ => ⟨none, none⟩) dRemoteA
      = ((some "Could not fetch undefined (1.0.0)", dRemoteA), true) ∧
    prepareBody (fun _ => ⟨some "connection reset", none⟩) dRemoteA
      = ((some "connection reset", dRemoteA), true) ∧
    prepareBody (fun _ => ⟨none, some "/tmp/a.zip"⟩) dRemoteA
      = ((none, { dRemoteA with path := some "/tmp/a.zip" }), true) ∧
    dRemoteA.name = "a" :=
  ⟨fun _ => rfl, by decide, by decide, by decide, rfl⟩

/-- C9: the `force` parameter of `install` has no effect on behaviour.
For every package id, version, exact flag and session state, the call
with `force = true` and the call with `force = false` produce the same
cache, the same continuation (the same not-found outcome or the same
memoized job demand) and the same remote queries: after the
calling-convention check, `force` is never read. -/
theorem install_force_no_effect (cmp : String → String → Int)
    (compat : String → String → Bool) (normalize normPath : String → String)
    (packageAt : String → Option Package) (pref : Option Bool)
    (cache : Cache) (remotes : List RemoteObj) (packageId : String)
    (version : Option String) (isExact : Bool) :
    installCall cmp compat normalize normPath packageAt pref cache remotes
        packageId version isExact true
      = installCall cmp compat normalize normPath packageAt pref cache
          remotes packageId version isExact false := rfl

/-- With no version constraint the selection step takes the first
branch of the guard (`!version`) and keeps the higher-compared of
accumulator and current descriptor (source lines 93-94). -/
theorem descriptorForStep_none (cmp : String → String → Int)
    (compat : String → String → Bool) (ex : Bool)
    (ret : Option Descriptor) (cur : Descriptor) :
    descriptorForStep cmp compat none ex ret cur
      = match ret with
        | none => some cur
        | some r =>
            if cmp r.version cur.version < 0 then some cur else some r := by
  cases ret <;> simp [descriptorForStep]

/-- The no-constraint selection fold only returns the accumulator or a
member of the scanned list. -/
theorem foldl_selectNone_mem (cmp : String → String → Int)
    (compat : String → String → Bool) (ex : Bool) :
    ∀ (l : List Descriptor) (acc : Option Descriptor) (r : Descriptor),
      l.foldl (descriptorForStep cmp compat none ex) acc = some r →
      acc = some r ∨ r ∈ l := by
  intro l
  induction l with
  | nil => intro acc r h; exact Or.inl h
  | cons cur rest ih =>
      intro acc r h
      rw [List.foldl_cons] at h
      rcases ih _ r h with h2 | h2
      · rw [descriptorForStep_none] at h2
        cases acc with
        | none =>
            right; rw [Option.some.injEq] at h2
            rw [← h2]; exact List.mem_cons_self _ _
        | some a0 =>
            by_cases hc : cmp a0.version cur.version < 0
            · simp only [hc, if_true] at h2
              right; rw [Option.some.injEq] at h2
              rw [← h2]; exact List.mem_cons_self _ _
            · simp only [hc, if_false] at h2
              exact Or.inl h2
      · right; exact List.mem_cons_of_mem _ h2

/-- The no-constraint selection fold yields a result whenever the
accumulator is set or the list is nonempty. -/
theorem foldl_selectNone_isSome (cmp : String → String → Int)
    (compat : String → String → Bool) (ex : Bool) :
    ∀ (l : List Descriptor) (acc : Option Descriptor),
      acc.isSome ∨ l ≠ [] →
      (l.foldl (descriptorForStep cmp compat none ex) acc).isSome := by
  intro l
  induction l with
  | nil =>
      intro acc h
      rcases h with h | h
      · exact h
      · exact absurd rfl h
  | cons cur rest ih =>
      intro acc _
      rw [List.foldl_cons]
      refine ih _ (Or.inl ?_)
      rw [descriptorForStep_none]
      cases acc with
      | none => rfl
      | some a0 =>
          by_cases hc : cmp a0.version cur.version < 0 <;>
            simp [hc]

/-- The no-constraint selection fold returns a descriptor that no
scanned descriptor (and no set accumulator) strictly exceeds, provided
the comparator's strict order is irreflexive, transitive and
cotransitive. -/
theorem foldl_selectNone_ge (cmp : String → String → Int)
    (compat : String → String → Bool) (ex : Bool)
    (hirr : ∀ a, ¬ cmp a a < 0)
    (htrans : ∀ a b c, cmp a b < 0 → cmp b c < 0 → cmp a c < 0)
    (hconn : ∀ a b c, cmp a c < 0 → cmp a b < 0 ∨ cmp b c < 0) :
    ∀ (l : List Descriptor) (acc : Option Descriptor) (r : Descriptor),
      l.foldl (descriptorForStep cmp compat none ex) acc = some r →
      (∀ a, acc = some a → ¬ cmp r.version a.version < 0) ∧
      (∀ d ∈ l, ¬ cmp r.version d.version < 0) := by
  intro l
  induction l with
  | nil =>
      intro acc r h
      constructor
      · intro a ha
        rw [ha, List.foldl_nil, Option.some.injEq] at h
        rw [← h]; exact hirr _
      · intro d hd; cases hd
  | cons cur rest ih =>
      intro acc r h
      rw [List.foldl_cons] at h
      have IH := ih (descriptorForStep cmp compat none ex acc cur) r h
      cases acc with
      | none =>
          have hcur : ¬ cmp r.version cur.version < 0 := by
            refine IH.1 cur ?_
            rw [descriptorForStep_none]
          constructor
          · intro a ha; cases ha
          · intro d hd
            rcases List.mem_cons.mp hd with rfl | hd
            · exact hcur
            · exact IH.2 d hd
      | some a0 =>
          by_cases hc : cmp a0.version cur.version < 0
          · have hstep : descriptorForStep cmp compat none ex (some a0) cur
                = some cur := by
              rw [descriptorForStep_none]; simp [hc]
            have hrcur := IH.1 cur hstep
            have hra0 : ¬ cmp r.version a0.version < 0 := by
              intro hra
              exact hrcur (htrans _ _ _ hra hc)
            constructor
            · intro a ha
              rw [Option.some.injEq] at ha
              rw [← ha]; exact hra0
            · intro d hd
              rcases List.mem_cons.mp hd with rfl | hd
              · exact hrcur
              · exact IH.2 d hd
          · have hstep : descriptorForStep cmp compat none ex (some a0) cur
                = some a0 := by
              rw [descriptorForStep_none]; simp [hc]
            have hra0 := IH.1 a0 hstep
            have hrcur : ¬ cmp r.version cur.version < 0 := by
              intro hrc
              rcases hconn r.version a0.version cur.version hrc with hx | hx
              · exact hra0 hx
              · exact hc hx
            constructor
            · intro a ha
              rw [Option.some.injEq] at ha
              rw [← ha]; exact hra0
            · intro d hd
              rcases List.mem_cons.mp hd with rfl | hd
              · exact hrcur
              · exact IH.2 d hd

/-- With a version constraint and exact matching the selection step only
reacts to a verbatim version match (source line 97). -/
theorem descriptorForStep_exact (cmp : String → String → Int)
    (compat : String → String → Bool) (v : String)
    (ret : Option Descriptor) (cur : Descriptor) :
    descriptorForStep cmp compat (some v) true ret cur
      = if cur.version = v then some cur else ret := by
  simp [descriptorForStep]

/-- The exact-match fold only returns the accumulator or a member with
the requested version string. -/
theorem foldl_selectExact_sound (cmp : String → String → Int)
    (compat : String → String → Bool) (v : String) :
    ∀ (l : List Descriptor) (acc : Option Descriptor) (r : Descriptor),
      l.foldl (descriptorForStep cmp compat (some v) true) acc = some r →
      acc = some r ∨ (r ∈ l ∧ r.version = v) := by
  intro l
  induction l with
  | nil => intro acc r h; exact Or.inl h
  | cons cur rest ih =>
      intro acc r h
      rw [List.foldl_cons] at h
      rcases ih _ r h with h2 | h2
      · rw [descriptorForStep_exact] at h2
        by_cases hv : cur.version = v
        · simp only [hv, if_true] at h2
          rw [Option.some.injEq] at h2
          right; rw [← h2]
          exact ⟨List.mem_cons_self _ _, hv⟩
        · simp only [hv, if_false] at h2
          exact Or.inl h2
      · exact Or.inr ⟨List.mem_cons_of_mem _ h2.1, h2.2⟩

/-- The exact-match fold leaves the accumulator untouched when no
scanned descriptor carries the requested version string. -/
theorem foldl_selectExact_none (cmp : String → String → Int)
    (compat : String → String → Bool) (v : String) :
    ∀ (l : List Descriptor) (acc : Option Descriptor),
      (∀ d ∈ l, d.version ≠ v) →
      l.foldl (descriptorForStep cmp compat (some v) true) acc = acc := by
  intro l
  induction l with
  | nil => intro acc _; rfl
  | cons cur rest ih =>
      intro acc hall
      rw [List.foldl_cons, descriptorForStep_exact]
      have hcur : cur.version ≠ v := hall cur (List.mem_cons_self _ _)
      rw [if_neg hcur]
      exact ih acc (fun d hd => hall d (List.mem_cons_of_mem _ hd))

/-- C5: cache selection.  With no version constraint, `descriptorFor`
returns a cached descriptor of the identifier that no other cached
descriptor for it strictly exceeds under the semantic-version comparator
(whose strict order is assumed irreflexive, transitive and
cotransitive, as any version order is); with a constraint and
exact = true it returns only a descriptor whose version string equals
the constraint verbatim; and when no cached descriptor qualifies —
whether the identifier is unknown or no cached version matches exactly —
it returns `none` rather than an error. -/
theorem descriptorFor_selection (cmp : String → String → Int)
    (compat : String → String → Bool) (cache : Cache)
    (packageId : String) (v : String) (bucket : List Descriptor)
    (hirr : ∀ a, ¬ cmp a a < 0)
    (htrans : ∀ a b c, cmp a b < 0 → cmp b c < 0 → cmp a c < 0)
    (hconn : ∀ a b c, cmp a c < 0 → cmp a b < 0 ∨ cmp b c < 0)
    (hbucket : cacheGet cache packageId = some bucket) :
    (bucket ≠ [] → ∃ r,
        descriptorFor cmp compat cache packageId none false = some r ∧
        r ∈ bucket ∧ ∀ d ∈ bucket, ¬ cmp r.version d.version < 0) ∧
    (∀ r, descriptorFor cmp compat cache packageId (some v) true = some r →
        r ∈ bucket ∧ r.version = v) ∧
    ((∀ d ∈ bucket, d.version ≠ v) →
        descriptorFor cmp compat cache packageId (some v) true = none) ∧
    (∀ pid, cacheGet cache pid = none →
        descriptorFor cmp compat cache pid (some v) true = none) := by
  refine ⟨?_, ?_, ?_, ?_⟩
  · intro hne
    have hsome := foldl_selectNone_isSome cmp compat false bucket none
      (Or.inr hne)
    rcases Option.isSome_iff_exists.mp hsome with ⟨r, hr⟩
    refine ⟨r, ?_, ?_, ?_⟩
    · unfold descriptorFor; rw [hbucket]; exact hr
    · rcases foldl_selectNone_mem cmp compat false bucket none r hr with
        h | h
      · cases h
      · exact h
    · exact (foldl_selectNone_ge cmp compat false hirr htrans hconn bucket
        none r hr).2
  · intro r h
    unfold descriptorFor at h; rw [hbucket] at h
    rcases foldl_selectExact_sound cmp compat v bucket none r h with h2 | h2
    · cases h2
    · exact h2
  · intro hall
    unfold descriptorFor; rw [hbucket]
    exact foldl_selectExact_none cmp compat v bucket none hall
  · intro pid hnone
    unfold descriptorFor; rw [hnone]

/-- C5 witness: the selection properties instantiated at a concrete
cache holding versions `1` and `22` of package `foo`, with the external
comparator instantiated by the length comparator (which orders these
versions as semantic versioning does). -/
theorem descriptorFor_selection_witness :
    (([dFoo1, dFoo22] : List Descriptor) ≠ [] → ∃ r,
        descriptorFor cmpLen (fun _ _ => true) [("foo", [dFoo1, dFoo22])]
          "foo" none false = some r ∧
        r ∈ [dFoo1, dFoo22] ∧
        ∀ d ∈ [dFoo1, dFoo22], ¬ cmpLen r.version d.version < 0) ∧
    (∀ r, descriptorFor cmpLen (fun _ _ => true) [("foo", [dFoo1, dFoo22])]
          "foo" (some "1") true = some r →
        r ∈ [dFoo1, dFoo22] ∧ r.version = "1") ∧
    ((∀ d ∈ [dFoo1, dFoo22], d.version ≠ "1") →
        descriptorFor cmpLen (fun _ _ => true) [("foo", [dFoo1, dFoo22])]
          "foo" (some "1") true = none) ∧
    (∀ pid, cacheGet [("foo", [dFoo1, dFoo22])] pid = none →
        descriptorFor cmpLen (fun _ _ => true) [("foo", [dFoo1, dFoo22])]
          pid (some "1") true = none) :=
  descriptorFor_selection cmpLen (fun _ _ => true)
    [("foo", [dFoo1, dFoo22])] "foo" "1" [dFoo1, dFoo22]
    (by intro a; simp only [cmpLen]; omega)
    (by intro a b c h1 h2; simp only [cmpLen] at *; omega)
    (by intro a b c h; simp only [cmpLen] at *; omega)
    rfl

/-- Every query the remote scan issues carries the one option record
built before the loop. -/
theorem findLoop_queries_opts (cmp : String → String → Int)
    (compat : String → String → Bool) (normalize : String → String)
    (packageId : String) (version : Option String) (exactM : Bool)
    (opts : ListOpts) :
    ∀ (remotes : List RemoteObj) (cache : Cache) (q : Nat × ListOpts),
      q ∈ (findLoop cmp compat normalize packageId version exactM opts
            cache remotes).queries →
      q.2 = opts := by
  intro remotes
  induction remotes with
  | nil => intro cache q hq; cases hq
  | cons r rest ih =>
      intro cache q hq
      cases hrep : r.reply opts with
      | none =>
          simp only [findLoop, hrep] at hq
          rcases List.mem_cons.mp hq with rfl | hq
          · rfl
          · exact ih cache q hq
      | some response =>
          cases hsel : descriptorFor cmp compat
              (mergeResponse normalize cache response r.id) packageId
              version exactM with
          | some d =>
              simp only [findLoop, hrep, hsel] at hq
              rcases List.mem_cons.mp hq with rfl | hq
              · rfl
              · cases hq
          | none =>
              simp only [findLoop, hrep, hsel] at hq
              rcases List.mem_cons.mp hq with rfl | hq
              · rfl
              · exact ih _ q hq

/-- The remote scan queries a prefix of the remote list, in order, and a
remote is only queried while the selection against the cache — as
accumulated by merging the replies of the remotes already scanned —
still fails. -/
theorem findLoop_sequential (cmp : String → String → Int)
    (compat : String → String → Bool) (normalize : String → String)
    (packageId : String) (version : Option String) (exactM : Bool)
    (opts : ListOpts) :
    ∀ (remotes : List RemoteObj) (cache : Cache),
      descriptorFor cmp compat cache packageId version exactM = none →
      ((findLoop cmp compat normalize packageId version exactM opts cache
          remotes).queries
        = (remotes.take (findLoop cmp compat normalize packageId version
            exactM opts cache remotes).queries.length).map
            (fun r => (r.id, opts))) ∧
      (∀ j, j + 1 < (findLoop cmp compat normalize packageId version exactM
            opts cache remotes).queries.length →
          descriptorFor cmp compat
            ((remotes.take (j + 1)).foldl (mergeReply normalize opts) cache)
            packageId version exactM = none) := by
  intro remotes
  induction remotes with
  | nil =>
      intro cache _
      constructor
      · rfl
      · intro j hj
        simp only [findLoop, List.length_nil] at hj
        omega
  | cons r rest ih =>
      intro cache hnone
      cases hrep : r.reply opts with
      | none =>
          have hmerge : mergeReply normalize opts cache r = cache := by
            simp [mergeReply, hrep]
          have IH := ih cache hnone
          constructor
          · simp only [findLoop, hrep, List.length_cons, List.take_succ_cons,
              List.map_cons]
            exact congrArg (List.cons (r.id, opts)) IH.1
          · intro j hj
            simp only [findLoop, hrep, List.length_cons] at hj
            cases j with
            | zero =>
                simp only [List.take_succ_cons, List.take_zero,
                  List.foldl_cons, List.foldl_nil, hmerge]
                exact hnone
            | succ k =>
                have hk : k + 1 < (findLoop cmp compat normalize packageId
                    version exactM opts cache rest).queries.length := by
                  omega
                simp only [List.take_succ_cons, List.foldl_cons, hmerge]
                exact IH.2 k hk
      | some response =>
          have hmerge : mergeReply normalize opts cache r
              = mergeResponse normalize cache response r.id := by
            simp [mergeReply, hrep]
          cases hsel : descriptorFor cmp compat
              (mergeResponse normalize cache response r.id) packageId
              version exactM with
          | some d =>
              constructor
              · simp [findLoop, hrep, hsel]
              · intro j hj
                simp only [findLoop, hrep, hsel, List.length_cons,
                  List.length_nil] at hj
                omega
          | none =>
              have IH := ih (mergeResponse normalize cache response r.id)
                hsel
              constructor
              · simp only [findLoop, hrep, hsel, List.length_cons,
                  List.take_succ_cons, List.map_cons]
                exact congrArg (List.cons (r.id, opts)) IH.1
              · intro j hj
                simp only [findLoop, hrep, hsel, List.length_cons] at hj
                cases j with
                | zero =>
                    simp only [List.take_succ_cons, List.take_zero,
                      List.foldl_cons, List.foldl_nil, hmerge]
                    exact hsel
                | succ k =>
                    have hk : k + 1 < (findLoop cmp compat normalize
                        packageId version exactM opts
                        (mergeResponse normalize cache response r.id)
                        rest).queries.length := by
                      omega
                    simp only [List.take_succ_cons, List.foldl_cons, hmerge]
                    exact IH.2 k hk

/-- With no version constraint the selection ignores the exact flag:
the guard's first disjunct (`!version`) short-circuits it and the
verbatim comparison `cur.version === version` can never hold. -/
theorem descriptorFor_noVersion_exact_irrelevant
    (cmp : String → String → Int) (compat : String → String → Bool)
    (cache : Cache) (packageId : String) (e1 e2 : Bool) :
    descriptorFor cmp compat cache packageId none e1
      = descriptorFor cmp compat cache packageId none e2 := by
  have hstep : descriptorForStep cmp compat none e1
      = descriptorForStep cmp compat none e2 := by
    funext ret cur
    rw [descriptorForStep_none, descriptorForStep_none]
  unfold descriptorFor
  rw [hstep]

/-- C6: the remote scan of `findDescriptor` is strictly sequential in
priority order and stops at the first satisfying source.  If the cache
already satisfies the request, no remote is queried at all; the queried
remotes always form a prefix of the configured remote list, each queried
with the one option record built before the loop; and a remote is only
queried while the cache — as accumulated by merging, with overlay =
false, the replies of the remotes already scanned — still fails the
selection, so remote `k+1` is never queried once remote `k`'s merged
results let the selection succeed. -/
theorem findDescriptor_sequential_scan (cmp : String → String → Int)
    (compat : String → String → Bool) (normalize : String → String)
    (pref : Option Bool) (cache : Cache) (remotes : List RemoteObj)
    (packageId : String) (version : Option String) (isExact : Bool) :
    ((descriptorFor cmp compat cache packageId version isExact).isSome →
        (findDescriptor cmp compat normalize pref cache remotes packageId
          version isExact).queries = []) ∧
    ((findDescriptor cmp compat normalize pref cache remotes packageId
        version isExact).queries
      = (remotes.take (findDescriptor cmp compat normalize pref cache
          remotes packageId version isExact).queries.length).map
          (fun r => (r.id, fdOpts packageId version isExact))) ∧
    (∀ j, j + 1 < (findDescriptor cmp compat normalize pref cache remotes
          packageId version isExact).queries.length →
        descriptorFor cmp compat
          ((remotes.take (j + 1)).foldl
            (mergeReply normalize (fdOpts packageId version isExact)) cache)
          packageId version (version.isSome && isExact) = none) := by
  cases hsel : descriptorFor cmp compat cache packageId version isExact with
  | some d =>
      refine ⟨fun _ => ?_, ?_, ?_⟩
      · simp [findDescriptor, hsel]
      · simp [findDescriptor, hsel]
      · intro j hj
        simp [findDescriptor, hsel] at hj
  | none =>
      have hentry : descriptorFor cmp compat cache packageId version
          (version.isSome && isExact) = none := by
        cases version with
        | none =>
            rw [descriptorFor_noVersion_exact_irrelevant cmp compat cache
              packageId _ isExact]
            exact hsel
        | some w => simpa using hsel
      have H := findLoop_sequential cmp compat normalize packageId version
        (version.isSome && isExact) (fdOpts packageId version isExact)
        remotes cache hentry
      refine ⟨fun hs => ?_, ?_, ?_⟩
      · simp at hs
      · simpa [findDescriptor, hsel] using H.1
      · intro j hj
        simp only [findDescriptor, hsel] at hj
        have := H.2 j hj
        simpa [findDescriptor, hsel] using this

/-- C6 witness: with an empty cache and two configured remotes, the
first of which offers `foo`, only the first remote is queried: the query
list is the one-element prefix. -/
theorem findDescriptor_sequential_scan_witness :
    ((descriptorFor cmpLen (fun _ _ => true) [] "foo" none false).isSome →
        (findDescriptor cmpLen (fun _ _ => true) (fun s => s) none []
          [⟨5, fun _ => some [⟨"foo", "1.0.0", none⟩]⟩,
           ⟨6, fun _ => none⟩] "foo" none false).queries = []) ∧
    ((findDescriptor cmpLen (fun _ _ => true) (fun s => s) none []
        [⟨5, fun _ => some [⟨"foo", "1.0.0", none⟩]⟩,
         ⟨6, fun _ => none⟩] "foo" none false).queries
      = (([⟨5, fun _ => some [⟨"foo", "1.0.0", none⟩]⟩,
           ⟨6, fun _ => none⟩] : List RemoteObj).take
          (findDescriptor cmpLen (fun _ _ => true) (fun s => s) none []
            [⟨5, fun _ => some [⟨"foo", "1.0.0", none⟩]⟩,
             ⟨6, fun _ => none⟩] "foo" none false).queries.length).map
          (fun r => (r.id, fdOpts "foo" none false))) ∧
    (∀ j, j + 1 < (findDescriptor cmpLen (fun _ _ => true) (fun s => s)
          none [] [⟨5, fun _ => some [⟨"foo", "1.0.0", none⟩]⟩,
           ⟨6, fun _ => none⟩] "foo" none false).queries.length →
        descriptorFor cmpLen (fun _ _ => true)
          ((([⟨5, fun _ => some [⟨"foo", "1.0.0", none⟩]⟩,
              ⟨6, fun _ => none⟩] : List RemoteObj).take (j + 1)).foldl
            (mergeReply (fun s => s) (fdOpts "foo" none false)) [])
          "foo" none ((none : Option String).isSome && false) = none) :=
  findDescriptor_sequential_scan cmpLen (fun _ _ => true) (fun s => s)
    none [] [⟨5, fun _ => some [⟨"foo", "1.0.0", none⟩]⟩,
     ⟨6, fun _ => none⟩] "foo" none false

/-- C10: every `list` query `findDescriptor` issues carries
`dependencies: false`, whatever the session's `includeDependencies`
preference is; and a descriptor built from a remote's reply takes
exactly the dependency map the remote volunteered, defaulting to the
empty map. -/
theorem findDescriptor_never_asks_for_dependencies
    (cmp : String → String → Int) (compat : String → String → Bool)
    (normalize : String → String) (pref : Option Bool) (cache : Cache)
    (remotes : List RemoteObj) (packageId : String)
    (version : Option String) (isExact : Bool) (q : Nat × ListOpts)
    (info : PackageInfo) (rid : Nat)
    (hq : q ∈ (findDescriptor cmp compat normalize pref cache remotes
        packageId version isExact).queries) :
    q.2.dependencies = false ∧
    (buildDescriptorFromRemote normalize info rid).dependencies
      = info.dependencies.getD [] := by
  refine ⟨?_, rfl⟩
  cases hsel : descriptorFor cmp compat cache packageId version isExact with
  | some d =>
      simp only [findDescriptor, hsel] at hq
      cases hq
  | none =>
      simp only [findDescriptor, hsel] at hq
      have := findLoop_queries_opts cmp compat normalize packageId version
        (version.isSome && isExact) (fdOpts packageId version isExact)
        remotes cache q hq
      rw [this]
      rfl

/-- C10 witness: a concrete scan (session preference `some true`, one
remote, empty cache) whose single query carries `dependencies: false`,
and a concrete remote reply whose dependency map is taken as
volunteered. -/
theorem findDescriptor_never_asks_for_dependencies_witness :
    ((7, fdOpts "foo" none false) : Nat × ListOpts).2.dependencies
        = false ∧
    (buildDescriptorFromRemote (fun s => s)
        ⟨"foo", "1.0.0", some [("bar", "1.0.0")]⟩ 7).dependencies
      = (some [("bar", "1.0.0")] : Option (List (String × String))).getD
          [] :=
  findDescriptor_never_asks_for_dependencies cmpLen (fun _ _ => true)
    (fun s => s) (some true) [] [⟨7, fun _ => none⟩] "foo" none false
    (7, fdOpts "foo" none false) ⟨"foo", "1.0.0", some [("bar", "1.0.0")]⟩
    7 (by decide)

/-- C8: argument classification in `install`.  `"./foo"`, `"../x/y"` and
`"a/b"` are classified as filesystem paths, `"foo"` and `"foo-bar"` as
package identifiers; any argument classified as a path is loaded
directly — its descriptor is built from the package at that path
(origin `"local"`) and inserted with overlay = true, with no remote
query issued — while any argument classified as an identifier goes
through cache-and-remote resolution. -/
theorem install_argument_classification (cmp : String → String → Int)
    (compat : String → String → Bool)
    (normalize normPath : String → String)
    (packageAt : String → Option Package) (pref : Option Bool)
    (cache : Cache) (remotes : List RemoteObj) (version : Option String)
    (isExact : Bool) (arg argId : String) (pkg : Package)
    (hpath : looksLikePath arg = true)
    (hident : looksLikePath argId = false)
    (hload : packageAt (normPath arg) = some pkg) :
    looksLikePath "./foo" = true ∧ looksLikePath "../x/y" = true ∧
    looksLikePath "a/b" = true ∧ looksLikePath "foo" = false ∧
    looksLikePath "foo-bar" = false ∧
    installResolve cmp compat normalize normPath packageAt pref cache
        remotes arg version isExact
      = ⟨(addDescriptor cache (buildDescriptorFromPackage normalize pkg)
            true).1,
         some (buildDescriptorFromPackage normalize pkg), []⟩ ∧
    (buildDescriptorFromPackage normalize pkg).location = "local" ∧
    installResolve cmp compat normalize normPath packageAt pref cache
        remotes argId version isExact
      = findDescriptor cmp compat normalize pref cache remotes argId
          version isExact := by
  refine ⟨by decide, by decide, by decide, by decide, by decide, ?_, rfl,
    ?_⟩
  · simp [installResolve, hpath, loadDescriptor, hload]
  · simp [installResolve, hident]

/-- C8 witness: the classification applied to the concrete argument
`"./foo"` (a path, loaded from the package oracle) and `"foo"` (an
identifier, resolved through the cache and remotes). -/
theorem install_argument_classification_witness :
    looksLikePath "./foo" = true ∧ looksLikePath "../x/y" = true ∧
    looksLikePath "a/b" = true ∧ looksLikePath "foo" = false ∧
    looksLikePath "foo-bar" = false ∧
    installResolve cmpLen (fun _ _ => true) (fun s => s) (fun s => s)
        (fun _ => some ⟨"a", "1.0.0", none, "/pkg/a"⟩) none [] []
        "./foo" none false
      = ⟨(addDescriptor []
            (buildDescriptorFromPackage (fun s => s)
              ⟨"a", "1.0.0", none, "/pkg/a"⟩) true).1,
         some (buildDescriptorFromPackage (fun s => s)
            ⟨"a", "1.0.0", none, "/pkg/a"⟩), []⟩ ∧
    (buildDescriptorFromPackage (fun s => s)
        ⟨"a", "1.0.0", none, "/pkg/a"⟩).location = "local" ∧
    installResolve cmpLen (fun _ _ => true) (fun s => s) (fun s => s)
        (fun _ => some ⟨"a", "1.0.0", none, "/pkg/a"⟩) none [] []
        "foo" none false
      = findDescriptor cmpLen (fun _ _ => true) (fun s => s) none [] []
          "foo" none false :=
  install_argument_classification cmpLen (fun _ _ => true) (fun s => s)
    (fun s => s) (fun _ => some ⟨"a", "1.0.0", none, "/pkg/a"⟩) none [] []
    none false "./foo" "foo" ⟨"a", "1.0.0", none, "/pkg/a"⟩
    (by decide) (by decide) rfl

/-- After the job has settled, further wellformed events never restart
the body: every later demand is answered from the cached outcome. -/
theorem jobRun_from_settled (o : Outcome) :
    ∀ tr : List JobEvent, jobWF (.settled o) tr = true →
      (jobRun (.settled o) tr).1 = .settled o ∧
      (jobRun (.settled o) tr).2.2 = 0 ∧
      (jobRun (.settled o) tr).2.1.length = callCount tr ∧
      ∀ p ∈ (jobRun (.settled o) tr).2.1, p.2 = o := by
  intro tr
  induction tr with
  | nil =>
      intro _
      exact ⟨rfl, rfl, rfl, by intro p hp; cases hp⟩
  | cons e es ih =>
      intro hwf
      cases e with
      | call c =>
          simp only [jobWF, jobStep, Bool.true_and] at hwf
          have IH := ih hwf
          simp only [jobRun, jobStep, Nat.zero_add]
          refine ⟨IH.1, IH.2.1, ?_, ?_⟩
          · simp only [List.length_cons, List.singleton_append, callCount]
            rw [IH.2.2.1]
          · intro p hp
            rcases List.mem_cons.mp hp with rfl | hp
            · rfl
            · exact IH.2.2.2 p hp
      | finish o2 =>
          simp only [jobWF] at hwf
          cases hwf

/-- While the body is in flight, further wellformed events never restart
it; once the body finishes, the waiters and every later demand receive
the finishing outcome, one delivery per demand. -/
theorem jobRun_from_pending (o : Outcome) :
    ∀ (tr : List JobEvent) (ws : List Nat),
      jobWF (.pending ws) tr = true →
      (jobRun (.pending ws) tr).1 = .settled o →
      (jobRun (.pending ws) tr).2.2 = 0 ∧
      (jobRun (.pending ws) tr).2.1.length = ws.length + callCount tr ∧
      ∀ p ∈ (jobRun (.pending ws) tr).2.1, p.2 = o := by
  intro tr
  induction tr with
  | nil =>
      intro ws _ hdone
      simp only [jobRun] at hdone
      cases hdone
  | cons e es ih =>
      intro ws hwf hdone
      cases e with
      | call c =>
          simp only [jobWF, jobStep, Bool.true_and] at hwf
          simp only [jobRun, jobStep, Nat.zero_add] at hdone ⊢
          have IH := ih (ws ++ [c]) hwf hdone
          refine ⟨IH.1, ?_, IH.2.2⟩
          simp only [List.nil_append, callCount]
          rw [IH.2.1, List.length_append]
          simp only [List.length_singleton]
          omega
      | finish o2 =>
          simp only [jobWF, jobStep, Bool.true_and] at hwf
          simp only [jobRun, jobStep, Nat.zero_add] at hdone ⊢
          have S := jobRun_from_settled o2 es hwf
          have ho : o2 = o := by
            rw [S.1] at hdone
            injection hdone
          refine ⟨S.2.1, ?_, ?_⟩
          · rw [List.length_append, List.length_map, S.2.2.1]
            simp only [callCount]
          · intro p hp
            rcases List.mem_append.mp hp with hp | hp
            · rcases List.mem_map.mp hp with ⟨c, _, rfl⟩
              exact ho
            · rw [← ho]
              exact S.2.2.2 p hp

/-- One execution of the install-job body invokes the destination's
install operation at most once, whatever its sub-steps produce. -/
theorem installJobBody_calls_le_one (packageId : String)
    (desc : Descriptor) (env : InstallEnv) :
    (installJobBody packageId desc env).2 ≤ 1 := by
  obtain ⟨p, d, le, lp, src, cl⟩ := env
  cases p with
  | some e => simp [installJobBody]
  | none =>
      cases d with
      | some e => simp [installJobBody]
      | none =>
          cases le with
          | some e => simp [installJobBody]
          | none =>
              cases lp with
              | none => simp [installJobBody]
              | some pk =>
                  cases src with
                  | some e => simp [installJobBody]
                  | none =>
                      by_cases hr : desc.remote.isSome <;>
                        simp [installJobBody, hr]

/-- C1: a descriptor's memoized install job.  In any wellformed,
completed event sequence at one descriptor's `installJob` — demands by
`install` callers arriving before, during or after the body's single
flight, in any interleaving — with at least two demands, the job body is
started exactly once, every demand receives exactly one answer, and
every answer is the one outcome the body settled with; moreover one
execution of the body invokes the destination's `source.install` at most
once, so the destination install operation runs at most once for the
descriptor. -/
theorem installJob_memoized (tr : List JobEvent) (o : Outcome)
    (packageId : String) (desc : Descriptor) (env : InstallEnv)
    (hwf : jobWF .unset tr = true)
    (hcalls : 2 ≤ callCount tr)
    (hdone : (jobRun .unset tr).1 = .settled o) :
    (jobRun .unset tr).2.2 = 1 ∧
    (jobRun .unset tr).2.1.length = callCount tr ∧
    (∀ p ∈ (jobRun .unset tr).2.1, p.2 = o) ∧
    (installJobBody packageId desc env).2 ≤ 1 := by
  cases tr with
  | nil => simp [callCount] at hcalls
  | cons e es =>
      cases e with
      | finish o2 =>
          simp only [jobWF] at hwf
          cases hwf
      | call c =>
          simp only [jobWF, jobStep, Bool.true_and] at hwf
          simp only [jobRun, jobStep] at hdone ⊢
          have H := jobRun_from_pending o es [c] hwf hdone
          refine ⟨?_, ?_, ?_, installJobBody_calls_le_one packageId desc
            env⟩
          · rw [H.1]
          · simp only [List.nil_append, callCount]
            rw [H.2.1]
            simp only [List.length_singleton]
            omega
          · intro p hp
            simp only [List.nil_append] at hp
            exact H.2.2 p hp

/-- C1 witness: a concrete wellformed interleaving — two demands while
the body is in flight, the body finishing successfully, then a third,
late demand — at a concrete descriptor and body environment. -/
theorem installJob_memoized_witness :
    (jobRun .unset [.call 0, .call 1, .finish none, .call 2]).2.2 = 1 ∧
    (jobRun .unset [.call 0, .call 1, .finish none, .call 2]).2.1.length
      = callCount [.call 0, .call 1, .finish none, .call 2] ∧
    (∀ p ∈ (jobRun .unset
        [.call 0, .call 1, .finish none, .call 2]).2.1, p.2 = none) ∧
    (installJobBody "a" dRemoteA
        ⟨none, none, none, some ⟨"a", "1.0.0", none, "/pkg/a"⟩, none,
         none⟩).2 ≤ 1 :=
  installJob_memoized [.call 0, .call 1, .finish none, .call 2] none "a"
    dRemoteA
    ⟨none, none, none, some ⟨"a", "1.0.0", none, "/pkg/a"⟩, none, none⟩
    (by decide) (by decide) (by decide)

end Seed
